import Mathlib

/-!
Verification development for the Git object-graph synchronization engine of
`supa-app-builder` (`src/services/githubService.ts`).

The engine's pure logic (`parseRepoUrl`, the import eligibility filter) is
embedded directly.  The stateful import (`fetchGithubRepo`) and push
(`pushToGitHubRepo`) operations are embedded as explicit state-passing
functions over a `RemoteState` that models the Git-hosting remote described
in the spec's external-interface section: a content-addressed store of
blob/tree/commit objects plus mutable branch refs.  Every remote HTTP call
the source issues is additionally recorded in a request trace, so that
read-only / write effects and request bodies can be stated and proved.
-/

namespace GithubSync

/-- A project file, from `src/types.ts` (`interface File`). -/
structure File where
  name : String
  content : String
  language : String
deriving DecidableEq, Repr

/-- One entry of the recursive tree listing, from `GitHubTreeItem` in
`src/services/githubService.ts` (`size` is optional there). -/
structure GitHubTreeItem where
  path : String
  type : String
  sha : String
  size : Option Nat
  url : String
deriving DecidableEq, Repr

/-- The extension allow-list constant `EXTENSION_WHITELIST` from the source. -/
def EXTENSION_WHITELIST : List String :=
  [".ts", ".tsx", ".js", ".jsx", ".vue", ".html", ".css", ".json", ".md", ".sql", ".toml"]

/-- The ignored-path constant `IGNORED_PATHS` from the source. -/
def IGNORED_PATHS : List String :=
  ["package-lock.json", "yarn.lock", "pnpm-lock.yaml", "dist", "build", "node_modules", ".git"]

/-- JavaScript `string.split(sep)` for a one-character separator, written by
structural recursion over the character list (so that concrete instances
reduce inside the kernel).  `"".split(sep) = [""]`, like in JavaScript. -/
def splitAux (sep : Char) : List Char → List Char → List String
  | [], acc => [String.mk acc.reverse]
  | c :: cs, acc =>
      if c = sep then String.mk acc.reverse :: splitAux sep cs []
      else splitAux sep cs (c :: acc)

/-- JavaScript `s.split(sep)` for a one-character separator. -/
def jsSplit (s : String) (sep : Char) : List String := splitAux sep s.data []

/-- Join a list of strings with a separator (inverse of `jsSplit` on
separator-free parts); used to rebuild a URL pathname. -/
def joinSep (sep : String) : List String → String
  | [] => ""
  | [s] => s
  | s :: rest => s ++ sep ++ joinSep sep rest

/-- JavaScript `array.pop()` on the (always non-empty) result of
`String.split`: the last element, with `""` as a degenerate default. -/
def lastSeg (l : List String) : String := (l.getLast?).getD ""

/-- The per-entry eligibility predicate used by `fetchGithubRepo`'s
`filter` callback (source lines 57-64), clause for clause:
non-blob entries are rejected; then ignored paths / path segments; then
extensions outside the allow-list (the extension is `'.' + path.split('.').pop()`);
then entries whose reported size is truthy and exceeds 100000. -/
def isEligibleBlob (item : GitHubTreeItem) : Bool :=
  if item.type ≠ "blob" then false
  else if IGNORED_PATHS.contains item.path
          || (jsSplit item.path '/').any (fun p => IGNORED_PATHS.contains p) then false
  else if ¬ EXTENSION_WHITELIST.contains ("." ++ lastSeg (jsSplit item.path '.')) then false
  else if (match item.size with
           | some n => decide (n > 100000)
           | none => false) then false
  else true

/-- Split a hierarchical URL at its first `://`, returning the scheme's
characters and the remainder. -/
def splitSchemeAux : List Char → List Char → Option (List Char × List Char)
  | [], _ => none
  | ':' :: '/' :: '/' :: rest, acc => some (acc.reverse, rest)
  | c :: cs, acc => splitSchemeAux cs (c :: acc)

/-- Model of the `pathname` of the WHATWG `URL` constructor, restricted to
hierarchical `scheme://host[/path]` references (the only shape the
repository-locator handles); any string without a `scheme://` prefix is
treated as the constructor throwing, i.e. `none`. -/
def urlPathname (url : String) : Option String :=
  match splitSchemeAux url.data [] with
  | none => none
  | some (scheme, rest) =>
      if scheme = [] then none
      else
        match jsSplit (String.mk rest) '/' with
        | [] => some "/"
        | _ :: segs => some ("/" ++ joinSep "/" segs)

/-- `parseRepoUrl` from the source: try URL parsing and take the first two
non-empty path segments of the pathname; on a URL-constructor failure fall
back to splitting the raw string on `/` and requiring exactly two parts;
otherwise `null`. -/
def parseRepoUrl (url : String) : Option (String × String) :=
  match urlPathname url with
  | some pathname =>
      match (jsSplit pathname '/').filter (fun p => p ≠ "") with
      | owner :: repo :: _ => some (owner, repo)
      | _ => none
  | none =>
      match jsSplit url '/' with
      | [owner, repo] => some (owner, repo)
      | _ => none

/-! ### The remote object store

Modelled from the spec: the Git-hosting remote consumed by the engine
(spec section 6, "EXTERNAL INTERFACES") is not part of this repository, so
it is modelled here as a content-addressed object store — blob, tree and
commit objects addressed by hash plus mutable branch refs — with the
documented endpoint semantics: GETs read, POSTs create objects and return
their hash idempotently, and the non-forcing `PATCH refs` succeeds exactly
on a fast-forward (the new commit descends from the branch's current tip). -/

/-- A stored blob payload as served by `GET {blob-url}`: either well-formed
base64 of a UTF-8 text (which `atob`/decode reconstructs exactly), or a
payload on which the source's decode chain throws (e.g. binary content).
Modelled from the spec: the platform base64 codec is injective on
well-formed payloads and fails on malformed ones; the source's whitespace
stripping before `atob` is a no-op on the compact payloads modelled here. -/
inductive Payload where
  | b64 (text : String)
  | bad (raw : String)
deriving DecidableEq, Repr

/-- The byte size the remote reports for a blob. -/
def payloadSize : Payload → Nat
  | .b64 t => t.length
  | .bad r => r.length

/-- The source's `atob`-and-UTF-8-decode chain applied to a fetched payload:
succeeds exactly on well-formed payloads. -/
def atobDecode : Payload → Option String
  | .b64 t => some t
  | .bad _ => none

/-- Repository metadata returned by `GET /repos/{owner}/{name}`. -/
structure RepoInfo where
  name : String
  default_branch : String
deriving DecidableEq, Repr

/-- A commit object: tree hash, parent hashes, message. -/
structure Commit where
  tree : String
  parents : List String
  message : String
deriving DecidableEq, Repr

/-- One entry of a stored tree object (recursive/flat view): path, object
kind (`"blob"` or `"tree"`), and target hash. -/
structure GitItem where
  path : String
  type : String
  sha : String
deriving DecidableEq, Repr

/-- The remote state of one repository: metadata, object stores keyed by
hash (first match wins, new objects are prepended), and branch refs. -/
structure RemoteState where
  repoInfo : Option RepoInfo
  blobs : List (String × Payload)
  trees : List (String × List GitItem)
  commits : List (String × Commit)
  refs : List (String × String)
deriving DecidableEq, Repr

/-- First-match association-list lookup, the access discipline of every
store in `RemoteState`. -/
def lookupS {α : Type} (l : List (String × α)) (k : String) : Option α :=
  (l.find? (fun e => e.1 == k)).map (fun e => e.2)

/-- The JSON body of the source's final `PATCH .../git/refs/heads/main`
request: exactly the two fields `{ sha, force }` (source lines 199-203). -/
structure UpdateRefBody where
  sha : String
  force : Bool
deriving DecidableEq, Repr

/-- One tree entry of the source's `POST .../git/trees` body:
`{ path, mode: '100644', type: 'blob', sha }` (source lines 158-163). -/
structure PushTreeItem where
  path : String
  mode : String
  type : String
  sha : String
deriving DecidableEq, Repr

/-- One HTTP request issued by the engine, by endpoint.  `get…` constructors
are the method-less `fetch` calls of the import path (HTTP GET); `post…`
and `patchRef` are the write calls of the push path. -/
inductive GitRequest where
  | getRepo (owner repo : String)
  | getTree (owner repo branch : String)
  | getBlob (url : String)
  | getRef (owner repo branch : String)
  | getCommit (owner repo sha : String)
  | postBlob (owner repo content : String)
  | postTree (owner repo baseTree : String) (items : List PushTreeItem)
  | postCommit (owner repo message tree : String) (parents : List String)
  | patchRef (owner repo branch : String) (body : UpdateRefBody)
deriving DecidableEq, Repr

/-- Whether a request uses a read-only HTTP method (GET). -/
def isReadOnly : GitRequest → Bool
  | .getRepo _ _ | .getTree _ _ _ | .getBlob _ | .getRef _ _ _ | .getCommit _ _ _ => true
  | .postBlob _ _ _ | .postTree _ _ _ _ | .postCommit _ _ _ _ _ | .patchRef _ _ _ _ => false

/-- Environment fallibility: which remote calls the remote answers with a
non-success status.  Modelled from the spec: each remote call may fail
independently; `blobCreateFails` lists the blob contents whose
`POST /git/blobs` is rejected (the per-file failure the push skips). -/
structure Behavior where
  repoFails : Bool
  treeListFails : Bool
  refFails : Bool
  commitFetchFails : Bool
  blobCreateFails : List String
  treeCreateFails : Bool
  commitCreateFails : Bool
  refUpdateFails : Bool
deriving DecidableEq, Repr

/-- The fully-successful environment: every remote call succeeds. -/
def cleanB : Behavior := ⟨false, false, false, false, [], false, false, false⟩

/-- Modelled from the spec: content-addressed blob hashing (`POST /git/blobs`
returns the same hash for the same content). -/
def blobShaOf (content : String) : String := "B|" ++ content

/-- Modelled from the spec: content-addressed tree hashing. -/
def treeShaOf (entries : List GitItem) : String :=
  "T|" ++ joinSep ";" (entries.map (fun e => e.path ++ ":" ++ e.type ++ ":" ++ e.sha))

/-- Modelled from the spec: content-addressed commit hashing. -/
def commitShaOf (message tree : String) (parents : List String) : String :=
  "C|" ++ message ++ "|" ++ tree ++ "|" ++ joinSep "," parents

/-- Ancestry in the commit store: `isAncestor cs fuel a b` holds when `b`
reaches `a` by following parent hashes (reflexively); `fuel` bounds the
walk and any value beyond the store size is exact. -/
def isAncestor (cs : List (String × Commit)) : Nat → String → String → Bool
  | 0, _, _ => false
  | fuel + 1, a, b =>
      a == b ||
      (match lookupS cs b with
       | none => false
       | some c => c.parents.any (fun p => isAncestor cs fuel a p))

/-! ### Import (`fetchGithubRepo`) -/

/-- One listing row served for a stored tree entry: path, kind and hash as
stored, plus the blob's reported size and its content URL. -/
def listingItem (s : RemoteState) (e : GitItem) : GitHubTreeItem :=
  { path := e.path, type := e.type, sha := e.sha,
    size := (lookupS s.blobs e.sha).map payloadSize,
    url := "u|" ++ e.sha }

/-- The recursive tree listing `GET /git/trees/{branch}?recursive=1`:
resolve the branch ref to its tip commit, the commit to its tree, and
serve the tree's entries together with each blob's reported size and
content URL. -/
def listingOf (s : RemoteState) (branch : String) : Option (List GitHubTreeItem) :=
  match lookupS s.refs branch with
  | none => none
  | some tip =>
      match lookupS s.commits tip with
      | none => none
      | some c =>
          match lookupS s.trees c.tree with
          | none => none
          | some entries => some (entries.map (listingItem s))

/-- The payload stored for a path in a tree object: resolve the tree, find
its first blob entry at that path, and return that blob's payload.  This is
the byte-level content comparison used by the round-trip property. -/
def treeContentOf (s : RemoteState) (treeSha path : String) : Option Payload :=
  match lookupS s.trees treeSha with
  | none => none
  | some entries =>
      match entries.find? (fun e => e.path == path && e.type == "blob") with
      | none => none
      | some e => lookupS s.blobs e.sha

/-- `GET {blob-url}`: the payload of the blob whose content URL matches. -/
def blobPayload (s : RemoteState) (url : String) : Option Payload :=
  ((s.blobs).find? (fun e => ("u|" ++ e.1) == url)).map (fun e => e.2)

/-- One iteration of the import's per-blob callback (source lines 73-83):
fetch the blob's payload, base64-decode it (a missing/malformed payload
makes the callback's promise reject, which the source does not catch), and
build the `File` with the language tag `path.split('.').pop() || 'txt'`. -/
def fetchOne (s : RemoteState) (it : GitHubTreeItem) : Except String File :=
  match blobPayload s it.url with
  | none => .error "TypeError: undefined content"
  | some pl =>
      match atobDecode pl with
      | none => .error "InvalidCharacterError: atob failed"
      | some text =>
          .ok { name := it.path, content := text,
                language :=
                  let l := lastSeg (jsSplit it.path '.')
                  if l = "" then "txt" else l }

/-- The import's batched content-fetch loop (source lines 66-88): blobs are
processed in batches of `BATCH_SIZE = 5`; all requests of a batch are
issued, the batch is awaited as a whole (`Promise.all`: its value is the
files in order, or the first rejection), and a rejected batch aborts the
loop before any later batch starts.  Returns the loop's outcome and the
trace of issued blob requests. -/
def fetchBatches (s : RemoteState) :
    List GitHubTreeItem → Except String (List File) × List GitRequest
  | b1 :: b2 :: b3 :: b4 :: b5 :: rest =>
      let batch := [b1, b2, b3, b4, b5]
      let breqs := batch.map (fun it => GitRequest.getBlob it.url)
      (match batch.mapM (fetchOne s) with
       | .error e => (.error e, breqs)
       | .ok fs =>
           let pr := fetchBatches s rest
           ((pr.1).map (fun more => fs ++ more), breqs ++ pr.2))
  | l =>
      (l.mapM (fetchOne s), l.map (fun it => GitRequest.getBlob it.url))

/-- `fetchGithubRepo` from the source: repository metadata, recursive tree
listing, eligibility filter, then the batched content fetch; returns the
result together with the trace of every remote request issued. -/
def fetchGithubRepo (b : Behavior) (s : RemoteState) (owner repo : String) :
    Except String (String × List File) × List GitRequest :=
  let rq1 := GitRequest.getRepo owner repo
  if b.repoFails then (.error "Repository not found or access denied", [rq1]) else
  match s.repoInfo with
  | none => (.error "Repository not found or access denied", [rq1])
  | some info =>
      let rq2 := GitRequest.getTree owner repo info.default_branch
      if b.treeListFails then (.error "Failed to fetch repository tree", [rq1, rq2]) else
      match listingOf s info.default_branch with
      | none => (.error "Failed to fetch repository tree", [rq1, rq2])
      | some items =>
          let blobs := items.filter isEligibleBlob
          let pr := fetchBatches s blobs
          ((pr.1).map (fun files => (info.name, files)), rq1 :: rq2 :: pr.2)

/-! ### Push (`pushToGitHubRepo`) -/

/-- The tree entries the push's step 3 collects (source lines 145-166): one
`{ path, mode: '100644', type: 'blob', sha }` per file whose
`POST /git/blobs` succeeded; a failed blob creation is skipped
(`if (!blobRes.ok) continue`) with no record kept. -/
def blobItems (b : Behavior) (files : List File) : List PushTreeItem :=
  files.filterMap (fun f =>
    if b.blobCreateFails.contains f.content then none
    else some ⟨f.name, "100644", "blob", blobShaOf f.content⟩)

/-- The blob objects the push's step 3 creates on the remote (the remote
stores the UTF-8 content it was sent, re-encoded as base64). -/
def newBlobObjs (b : Behavior) (files : List File) : List (String × Payload) :=
  files.filterMap (fun f =>
    if b.blobCreateFails.contains f.content then none
    else some (blobShaOf f.content, Payload.b64 f.content))

/-- GitHub tree-creation semantics for one entry (modelled from the spec):
an item whose path already exists in the base entries replaces that entry
in place, otherwise it is appended (base-tree paths are unique in a
well-formed Git tree, so replacing the first match is replacing the
match). -/
def setTreeEntry : List GitItem → PushTreeItem → List GitItem
  | [], it => [⟨it.path, it.type, it.sha⟩]
  | e :: t, it =>
      if e.path == it.path then ⟨it.path, it.type, it.sha⟩ :: t
      else e :: setTreeEntry t it

/-- `POST /git/trees` with `base_tree`: the base tree's entries overlaid
with the request's items (modelled from the spec). -/
def applyTreeItems (es : List GitItem) (items : List PushTreeItem) : List GitItem :=
  items.foldl setTreeEntry es

/-- A concurrent-writer step: between the push's step-1 ref read and its
step-6 ref update another writer may create a commit `c` and move
`refs/heads/main` to its hash `tip`.  Steps 2-5 of the push never read the
branch ref, so landing the external write just before step 6 models a tip
change at any point of that window. -/
structure Interference where
  tip : String
  commit : Commit
deriving DecidableEq, Repr

/-- `pushToGitHubRepo` from the source, step for step:
1. `GET /git/ref/heads/main` (checked; "Could not fetch repository HEAD ref");
2. `GET /git/commits/{tip}` for the base tree hash — the source performs no
   `.ok` check here, so a failed response surfaces as a thrown `TypeError`
   when `commitData.tree.sha` is read;
3. one `POST /git/blobs` per file, sequentially; a non-success response
   skips that file and keeps going;
4. `POST /git/trees` with the base tree and the collected items (checked);
5. `POST /git/commits` with the new tree and the step-1 tip as sole parent
   (checked);
6. `PATCH /git/refs/heads/main` with body `{ sha: newCommit, force: false }`
   (checked) — the remote, per its documented semantics, accepts exactly a
   fast-forward of the branch's current tip.
`intf`, when present, is a concurrent writer's ref update applied inside
the step-1/step-6 window.  Returns the outcome, the final remote state and
the trace of issued requests. -/
def pushToGitHubRepo (b : Behavior) (intf : Option Interference) (s : RemoteState)
    (owner repo : String) (files : List File) (message : String) :
    Except String Unit × RemoteState × List GitRequest :=
  let t1 := [GitRequest.getRef owner repo "main"]
  if b.refFails then (.error "Could not fetch repository HEAD ref", s, t1) else
  match lookupS s.refs "main" with
  | none => (.error "Could not fetch repository HEAD ref", s, t1)
  | some latestCommitSha =>
      let t2 := t1 ++ [GitRequest.getCommit owner repo latestCommitSha]
      if b.commitFetchFails then
        (.error "TypeError: cannot read tree of undefined", s, t2) else
      match lookupS s.commits latestCommitSha with
      | none => (.error "TypeError: cannot read tree of undefined", s, t2)
      | some commitData =>
          let baseTreeSha := commitData.tree
          let treeItems := blobItems b files
          let s3 : RemoteState := { s with blobs := newBlobObjs b files ++ s.blobs }
          let t3 := t2 ++ files.map (fun f => GitRequest.postBlob owner repo f.content)
          let t4 := t3 ++ [GitRequest.postTree owner repo baseTreeSha treeItems]
          if b.treeCreateFails then (.error "Failed to create git tree", s3, t4) else
          match lookupS s.trees baseTreeSha with
          | none => (.error "Failed to create git tree", s3, t4)
          | some baseEntries =>
              let newEntries := applyTreeItems baseEntries treeItems
              let newTreeSha := treeShaOf newEntries
              let s4 := { s3 with trees := (newTreeSha, newEntries) :: s3.trees }
              let t5 := t4 ++ [GitRequest.postCommit owner repo message newTreeSha [latestCommitSha]]
              if b.commitCreateFails then (.error "Failed to create commit", s4, t5) else
              let newCommitSha := commitShaOf message newTreeSha [latestCommitSha]
              let s5 := { s4 with
                commits := (newCommitSha, ⟨newTreeSha, [latestCommitSha], message⟩) :: s4.commits }
              let s6 := match intf with
                | none => s5
                | some i => { s5 with
                    commits := (i.tip, i.commit) :: s5.commits,
                    refs := ("main", i.tip) :: s5.refs }
              let t6 := t5 ++ [GitRequest.patchRef owner repo "main" ⟨newCommitSha, false⟩]
              if b.refUpdateFails then
                (.error "Failed to update repository reference", s6, t6) else
              match lookupS s6.refs "main" with
              | none => (.error "Failed to update repository reference", s6, t6)
              | some cur =>
                  if isAncestor s6.commits (s6.commits.length + 1) cur newCommitSha
                  then (.ok (), { s6 with refs := ("main", newCommitSha) :: s6.refs }, t6)
                  else (.error "Failed to update repository reference", s6, t6)

/-- The bodies of the `PATCH …/git/refs/…` requests in a trace. -/
def patchBodies (tr : List GitRequest) : List UpdateRefBody :=
  tr.filterMap (fun r =>
    match r with
    | .patchRef _ _ _ body => some body
    | _ => none)

/-- The item lists of the `POST …/git/trees` requests in a trace. -/
def postTreeItemLists (tr : List GitRequest) : List (List PushTreeItem) :=
  tr.filterMap (fun r =>
    match r with
    | .postTree _ _ _ items => some items
    | _ => none)

/-- Modelled from the spec: the effect of one request on the remote state —
GETs leave the store untouched, the POST endpoints create (content-addressed)
objects, and the `PATCH refs` endpoint moves the branch exactly on a forced
or fast-forward update.  Used to state that a request trace mutates
nothing. -/
def applyRequest (s : RemoteState) (r : GitRequest) : RemoteState :=
  match r with
  | .postBlob _ _ content =>
      { s with blobs := (blobShaOf content, .b64 content) :: s.blobs }
  | .postTree _ _ base items =>
      (match lookupS s.trees base with
       | none => s
       | some es =>
           { s with trees :=
               (treeShaOf (applyTreeItems es items), applyTreeItems es items) :: s.trees })
  | .postCommit _ _ msg tree parents =>
      { s with commits := (commitShaOf msg tree parents, ⟨tree, parents, msg⟩) :: s.commits }
  | .patchRef _ _ branch body =>
      (match lookupS s.refs branch with
       | none => s
       | some cur =>
           if body.force || isAncestor s.commits (s.commits.length + 1) cur body.sha
           then { s with refs := (branch, body.sha) :: s.refs }
           else s)
  | _ => s

/-! ### Concrete remote states used for witnesses and counterexamples -/

/-- A one-file repository `site` on `main` at tip `c0`. -/
def exampleState : RemoteState :=
  { repoInfo := some ⟨"site", "main"⟩,
    blobs := [("b1", .b64 "hello")],
    trees := [("t0", [⟨"index.html", "blob", "b1"⟩])],
    commits := [("c0", ⟨"t0", [], "init"⟩)],
    refs := [("main", "c0")] }

/-- A repository whose tree has one well-formed blob (`a.ts`) and one blob
whose payload the base64 decode chain rejects (`b.md`). -/
def exampleBadState : RemoteState :=
  { repoInfo := some ⟨"repo", "main"⟩,
    blobs := [("b1", .b64 "x"), ("b2", .bad "zz")],
    trees := [("t0", [⟨"a.ts", "blob", "b1"⟩, ⟨"b.md", "blob", "b2"⟩])],
    commits := [("c0", ⟨"t0", [], "init"⟩)],
    refs := [("main", "c0")] }

/-- A repository whose default branch is `dev`, with `main` and `dev`
holding different contents for the same path `a.ts`. -/
def exampleDevState : RemoteState :=
  { repoInfo := some ⟨"repo", "dev"⟩,
    blobs := [("bm", .b64 "AAA"), ("bd", .b64 "BBB")],
    trees := [("tm", [⟨"a.ts", "blob", "bm"⟩]), ("td", [⟨"a.ts", "blob", "bd"⟩])],
    commits := [("cm", ⟨"tm", [], "m0"⟩), ("cd", ⟨"td", [], "d0"⟩)],
    refs := [("main", "cm"), ("dev", "cd")] }

/-- Five files to push; blob creation will be made to fail for the third. -/
def exampleFiles : List File :=
  [⟨"a.ts", "ca", "ts"⟩, ⟨"b.ts", "cb", "ts"⟩, ⟨"c.ts", "cbad", "ts"⟩,
   ⟨"d.ts", "cd", "ts"⟩, ⟨"e.ts", "ce", "ts"⟩]

/-- The environment in which `POST /git/blobs` fails exactly for the
content of `c.ts` and every other call succeeds. -/
def exampleFailBehavior : Behavior := ⟨false, false, false, false, ["cbad"], false, false, false⟩

/-! ### Repository locator and file filter claims -/

/-- C7: `parseRepoUrl` maps `"https://host/owner/repo"`, the same URL with a
trailing slash, and the bare `"owner/repo"` shorthand to the identity
`(owner, repo)`, while the empty string and a single segment yield `none`
(`NotFound`); the function is pure, so there are no side effects. -/
theorem parseRepoUrl_reference_cases :
    parseRepoUrl "https://host/owner/repo" = some ("owner", "repo") ∧
    parseRepoUrl "https://host/owner/repo/" = some ("owner", "repo") ∧
    parseRepoUrl "owner/repo" = some ("owner", "repo") ∧
    parseRepoUrl "" = none ∧
    parseRepoUrl "owner" = none := by
  refine ⟨by decide, by decide, by decide, by decide, by decide⟩

/-- C8: the eligibility filter excludes any entry whose reported size exceeds
the fixed 100000-byte ceiling, whatever its other attributes; and for an
entry reporting no size, eligibility is decided exactly by the non-size
clauses (object kind, ignored paths, extension allow-list), so such an entry
is never excluded on size grounds. -/
theorem isEligibleBlob_size_ceiling (item : GitHubTreeItem) (n : Nat) :
    (item.size = some n → 100000 < n → isEligibleBlob item = false) ∧
    (item.size = none →
      isEligibleBlob item =
        (item.type == "blob"
          && !(IGNORED_PATHS.contains item.path
               || (jsSplit item.path '/').any (fun p => IGNORED_PATHS.contains p))
          && EXTENSION_WHITELIST.contains ("." ++ lastSeg (jsSplit item.path '.')))) := by
  constructor
  · intro hs hn
    have hd : decide (n > 100000) = true := decide_eq_true hn
    simp only [isEligibleBlob, hs, hd]
    split
    · rfl
    split
    · rfl
    split
    · rfl
    split
    · rfl
    · simp_all
  · intro hs
    by_cases h1 : item.type = "blob" <;>
      by_cases h2 : (IGNORED_PATHS.contains item.path
          || (jsSplit item.path '/').any (fun p => IGNORED_PATHS.contains p)) = true <;>
      by_cases h3 : EXTENSION_WHITELIST.contains
          ("." ++ lastSeg (jsSplit item.path '.')) = true <;>
      simp [isEligibleBlob, hs, h1, h2, h3] <;>
      (rw [Bool.eq_iff_iff]; simp [List.any_eq_true, and_assoc])

/-- Concrete instance of the C8 theorem: an otherwise-eligible 100001-byte
`.ts` entry is excluded, and a sizeless `.ts` entry is eligible exactly by
the non-size clauses. -/
theorem isEligibleBlob_size_ceiling_witness :
    isEligibleBlob ⟨"big.ts", "blob", "sha1", some 100001, "url1"⟩ = false ∧
    isEligibleBlob ⟨"small.ts", "blob", "sha2", none, "url2"⟩ =
      (("blob" : String) == "blob"
        && !(IGNORED_PATHS.contains "small.ts"
             || (jsSplit "small.ts" '/').any (fun p => IGNORED_PATHS.contains p))
        && EXTENSION_WHITELIST.contains ("." ++ lastSeg (jsSplit "small.ts" '.'))) :=
  ⟨(isEligibleBlob_size_ceiling ⟨"big.ts", "blob", "sha1", some 100001, "url1"⟩ 100001).1
      rfl (by decide),
   (isEligibleBlob_size_ceiling ⟨"small.ts", "blob", "sha2", none, "url2"⟩ 0).2 rfl⟩

/-- C10: a blob entry whose path contains no dot at all, but whose whole
final segment happens to name an allow-listed extension when prefixed with a
dot (here a file literally named `ts`), is accepted by the filter: the
extension computation `'.' + path.split('.').pop()` turns the extensionless
name itself into `".ts"`. -/
theorem isEligibleBlob_accepts_dotless_name :
    ("ts".data.all (fun c => c ≠ '.')) = true ∧
    isEligibleBlob ⟨"ts", "blob", "sha3", none, "url3"⟩ = true := by
  refine ⟨by decide, by decide⟩

/-! ### Shared lemmas on the store, the batch loop and `mapM` -/

theorem lookupS_cons_self {α : Type} (k : String) (v : α) (t : List (String × α)) :
    lookupS ((k, v) :: t) k = some v := by
  simp [lookupS, List.find?]

theorem lookupS_cons_ne {α : Type} {k' k : String} (h : k' ≠ k) (v : α)
    (t : List (String × α)) : lookupS ((k', v) :: t) k = lookupS t k := by
  have hb : (k' == k) = false := beq_eq_false_iff_ne.mpr h
  simp [lookupS, List.find?, hb]

/-- Induction along the shape of the batched fetch loop: the five short
final-batch shapes, and a full batch of five followed by the rest. -/
theorem fetchBatches_induction (motive : List GitHubTreeItem → Prop)
    (h0 : motive [])
    (h1 : ∀ b1, motive [b1])
    (h2 : ∀ b1 b2, motive [b1, b2])
    (h3 : ∀ b1 b2 b3, motive [b1, b2, b3])
    (h4 : ∀ b1 b2 b3 b4, motive [b1, b2, b3, b4])
    (h5 : ∀ b1 b2 b3 b4 b5 rest, motive rest → motive (b1 :: b2 :: b3 :: b4 :: b5 :: rest)) :
    ∀ l, motive l := by
  have key : ∀ (n : Nat) (l : List GitHubTreeItem), l.length ≤ n → motive l := by
    intro n
    induction n with
    | zero =>
        intro l hl
        rcases l with _ | ⟨b1, t⟩
        · exact h0
        · simp at hl
    | succ n ih =>
        intro l hl
        rcases l with _ | ⟨b1, _ | ⟨b2, _ | ⟨b3, _ | ⟨b4, _ | ⟨b5, rest⟩⟩⟩⟩⟩
        · exact h0
        · exact h1 b1
        · exact h2 b1 b2
        · exact h3 b1 b2 b3
        · exact h4 b1 b2 b3 b4
        · refine h5 b1 b2 b3 b4 b5 rest (ih rest ?_)
          simp at hl
          omega
  intro l
  exact key l.length l le_rfl

/-- Every request the batch loop issues is a blob GET. -/
theorem fetchBatches_trace_blobs (s : RemoteState) (l : List GitHubTreeItem) :
    ((fetchBatches s l).2).all isReadOnly = true := by
  induction l using fetchBatches_induction with
  | h0 => rfl
  | h1 b1 => simp [fetchBatches, isReadOnly]
  | h2 b1 b2 => simp [fetchBatches, isReadOnly]
  | h3 b1 b2 b3 => simp [fetchBatches, isReadOnly]
  | h4 b1 b2 b3 b4 => simp [fetchBatches, isReadOnly]
  | h5 b1 b2 b3 b4 b5 rest ih =>
      simp only [fetchBatches]
      split
      · simp [isReadOnly]
      · simp [isReadOnly, ih]

/-- The batch loop's outcome is exactly the sequential `mapM` of the
per-blob callback: batching changes request scheduling, not the result. -/
theorem fetchBatches_fst (s : RemoteState) (l : List GitHubTreeItem) :
    (fetchBatches s l).1 = l.mapM (fetchOne s) := by
  induction l using fetchBatches_induction with
  | h0 => rfl
  | h1 b1 => rfl
  | h2 b1 b2 => rfl
  | h3 b1 b2 b3 => rfl
  | h4 b1 b2 b3 b4 => rfl
  | h5 b1 b2 b3 b4 b5 rest ih =>
      have hsplit : (b1 :: b2 :: b3 :: b4 :: b5 :: rest).mapM (fetchOne s)
          = ([b1, b2, b3, b4, b5] ++ rest).mapM (fetchOne s) := rfl
      rw [hsplit, List.mapM_append]
      simp only [fetchBatches]
      split
      · rename_i e he
        rw [he]
        rfl
      · rename_i fs hfs
        rw [hfs, ih]
        cases rest.mapM (fetchOne s) <;> rfl

/-- `mapM` over `Except` succeeds exactly when every element succeeds, with
the results in pointwise correspondence. -/
theorem exceptMapM_ok_iff {α β : Type} (f : α → Except String β) (l : List α) (ys : List β) :
    l.mapM f = .ok ys ↔ List.Forall₂ (fun x y => f x = .ok y) l ys := by
  induction l generalizing ys with
  | nil =>
      rw [List.mapM_nil]
      constructor
      · intro h
        have he : ([] : List β) = ys := by simpa [pure, Except.pure] using h
        subst he
        exact List.Forall₂.nil
      · intro h
        cases h
        rfl
  | cons x xs ih =>
      rw [List.mapM_cons]
      constructor
      · intro h
        cases hfx : f x with
        | error e => rw [hfx] at h; simp [Bind.bind, Except.bind] at h
        | ok y =>
            rw [hfx] at h
            cases hxs : xs.mapM f with
            | error e => rw [hxs] at h; simp [Bind.bind, Except.bind] at h
            | ok ys' =>
                rw [hxs] at h
                simp only [Bind.bind, Except.bind, pure, Except.pure, Except.ok.injEq] at h
                subst h
                exact List.Forall₂.cons hfx ((ih ys').mp hxs)
      · intro h
        cases h with
        | cons hxy htail =>
            rename_i y ys'
            rw [hxy, (ih ys').mpr htail]
            rfl

theorem forall₂_mem_left {α β : Type} {R : α → β → Prop} :
    ∀ {l : List α} {ys : List β}, List.Forall₂ R l ys → ∀ {x}, x ∈ l → ∃ y, R x y := by
  intro l ys h
  induction h with
  | nil => intro x hx; cases hx
  | cons hxy _ ih =>
      intro x hx
      rcases List.mem_cons.mp hx with rfl | hx'
      · exact ⟨_, hxy⟩
      · exact ih hx'

theorem applyRequest_readOnly (s : RemoteState) (r : GitRequest)
    (h : isReadOnly r = true) : applyRequest s r = s := by
  cases r <;> simp_all [isReadOnly, applyRequest]

theorem foldl_applyRequest_readOnly (tr : List GitRequest) (s : RemoteState)
    (h : tr.all isReadOnly = true) : tr.foldl applyRequest s = s := by
  induction tr generalizing s with
  | nil => rfl
  | cons r rest ih =>
      rw [List.all_cons, Bool.and_eq_true] at h
      rw [List.foldl_cons, applyRequest_readOnly s r h.1]
      exact ih s h.2

/-! ### Import claims -/

/-- C9: an import only ever issues read (GET) requests — whatever the
repository state, the environment's behavior, or the outcome — and
therefore replaying its whole request trace against the remote's documented
endpoint semantics leaves the remote state unchanged: no object is created
and no ref is modified. -/
theorem import_never_mutates (b : Behavior) (s : RemoteState) (owner repo : String) :
    ((fetchGithubRepo b s owner repo).2).all isReadOnly = true ∧
    ((fetchGithubRepo b s owner repo).2).foldl applyRequest s = s := by
  have hall : ((fetchGithubRepo b s owner repo).2).all isReadOnly = true := by
    unfold fetchGithubRepo
    split
    · rfl
    split
    · rfl
    split
    · rfl
    split
    · rfl
    · simp [List.all_cons, isReadOnly, fetchBatches_trace_blobs]
  exact ⟨hall, foldl_applyRequest_readOnly _ s hall⟩

/-- C4, counterexample: in `exampleBadState` the blob of `a.ts` is
individually fetchable and decodable, yet because the payload of `b.md`
fails the base64 decode, the whole import rejects — the decode failure is
not recovered as a per-file error and the remaining file is not returned,
contradicting the claim. -/
theorem import_decode_failure_counterexample :
    fetchOne exampleBadState ⟨"a.ts", "blob", "b1", some 1, "u|b1"⟩ = .ok ⟨"a.ts", "x", "ts"⟩ ∧
    (fetchGithubRepo cleanB exampleBadState "o" "repo").1 =
      .error "InvalidCharacterError: atob failed" :=
  ⟨rfl, rfl⟩

/-- C4 as amended: a base64-decode failure for any eligible blob is fatal to
the whole import — the rejection propagates out of the batch loop
(`Promise.all` with no per-file catch), the call returns an error, and no
file at all is delivered to the caller. -/
theorem import_decode_failure_aborts (b : Behavior) (s : RemoteState) (owner repo : String)
    (info : RepoInfo) (items : List GitHubTreeItem)
    (hb1 : b.repoFails = false) (hb2 : b.treeListFails = false)
    (hinfo : s.repoInfo = some info)
    (hlist : listingOf s info.default_branch = some items)
    (hbad : ∃ it ∈ items.filter isEligibleBlob, ∀ y, fetchOne s it ≠ .ok y) :
    ∃ e, (fetchGithubRepo b s owner repo).1 = .error e := by
  have hres : (fetchGithubRepo b s owner repo).1
      = ((items.filter isEligibleBlob).mapM (fetchOne s)).map
          (fun files => (info.name, files)) := by
    unfold fetchGithubRepo
    simp [hb1, hinfo, hb2, hlist, fetchBatches_fst]
  cases hm : (items.filter isEligibleBlob).mapM (fetchOne s) with
  | error e =>
      refine ⟨e, ?_⟩
      rw [hres, hm]
      rfl
  | ok ys =>
      exfalso
      obtain ⟨it, hmem, hne⟩ := hbad
      obtain ⟨y, hy⟩ := forall₂_mem_left ((exceptMapM_ok_iff _ _ _).mp hm) hmem
      exact hne y hy

/-- Concrete instance of the amended C4 theorem on `exampleBadState`. -/
theorem import_decode_failure_aborts_witness :
    ∃ e, (fetchGithubRepo cleanB exampleBadState "o" "repo").1 = .error e := by
  refine import_decode_failure_aborts cleanB exampleBadState "o" "repo" ⟨"repo", "main"⟩
    [⟨"a.ts", "blob", "b1", some 1, "u|b1"⟩, ⟨"b.md", "blob", "b2", some 2, "u|b2"⟩]
    rfl rfl rfl rfl ?_
  refine ⟨⟨"b.md", "blob", "b2", some 2, "u|b2"⟩, by decide, ?_⟩
  intro y hy
  have he : fetchOne exampleBadState ⟨"b.md", "blob", "b2", some 2, "u|b2"⟩
      = .error "InvalidCharacterError: atob failed" := rfl
  rw [he] at hy
  exact Except.noConfusion hy

/-! ### Push claims -/

/-- `lookupS` only returns stored bindings. -/
theorem lookupS_mem {α : Type} {l : List (String × α)} {k : String} {v : α}
    (h : lookupS l k = some v) : (k, v) ∈ l := by
  unfold lookupS at h
  cases hf : l.find? (fun e => e.1 == k) with
  | none => rw [hf] at h; cases h
  | some e =>
      rw [hf] at h
      have he := List.mem_of_find?_eq_some hf
      cases e with
      | mk k' v' =>
          have hv : v' = v := by simpa using h
          have h1 : k' = k := by simpa using List.find?_some hf
          subst hv
          subst h1
          exact he

/-- A hash that is no stored commit's parent is an ancestor only of
itself: the ancestry walk can never reach it from anywhere else. -/
theorem isAncestor_fresh (cs : List (String × Commit)) (t : String)
    (hf : ∀ e ∈ cs, t ∉ e.2.parents) :
    ∀ (fuel : Nat) (b : String), b ≠ t → isAncestor cs fuel t b = false := by
  intro fuel
  induction fuel with
  | zero => intro b hb; rfl
  | succ n ih =>
      intro b hb
      unfold isAncestor
      have hbe : (t == b) = false := beq_eq_false_iff_ne.mpr (fun h => hb h.symm)
      rw [hbe]
      cases hlook : lookupS cs b with
      | none => simp
      | some c =>
          simp only [Bool.false_or]
          have ht : t ∉ c.parents := hf (b, c) (lookupS_mem hlook)
          refine Bool.eq_false_iff.mpr ?_
          intro hany
          obtain ⟨p, hp, hrec⟩ := List.any_eq_true.mp hany
          have hpne : p ≠ t := fun he => ht (he ▸ hp)
          rw [ih p hpne] at hrec
          cases hrec

/-- C1: if, between the push's step-1 tip read and its step-6 non-forcing
reference update, another writer advances `main` to a commit of their own
(`i.commit`, a child of the step-1 tip `latest`, stored under the fresh
hash `i.tip` that names no existing commit and differs from the hash of the
commit this push creates), then the reference update is rejected, the push
fails, and `main` is left pointing at the externally-written tip — the
concurrently-advanced branch is never overwritten. -/
theorem push_conflict_rejected (s : RemoteState) (owner repo : String)
    (files : List File) (message : String) (latest : String) (c0 : Commit) (es : List GitItem)
    (i : Interference)
    (h1 : lookupS s.refs "main" = some latest)
    (h2 : lookupS s.commits latest = some c0)
    (h3 : lookupS s.trees c0.tree = some es)
    (hadv : latest ∈ i.commit.parents)
    (hne1 : i.tip ≠ latest)
    (hne2 : i.tip ∉ i.commit.parents)
    (hfresh : ∀ e ∈ s.commits, i.tip ∉ e.2.parents)
    (hne3 : i.tip ≠ commitShaOf message (treeShaOf (applyTreeItems es (blobItems cleanB files)))
      [latest]) :
    (pushToGitHubRepo cleanB (some i) s owner repo files message).1 =
      .error "Failed to update repository reference" ∧
    lookupS (pushToGitHubRepo cleanB (some i) s owner repo files message).2.1.refs "main" =
      some i.tip := by
  have hfresh' : ∀ e ∈ ((i.tip, i.commit) ::
      (commitShaOf message (treeShaOf (applyTreeItems es (blobItems cleanB files))) [latest],
       (⟨treeShaOf (applyTreeItems es (blobItems cleanB files)), [latest], message⟩ : Commit)) ::
      s.commits), i.tip ∉ e.2.parents := by
    intro e he
    rcases List.mem_cons.mp he with rfl | he'
    · exact hne2
    rcases List.mem_cons.mp he' with rfl | he''
    · simpa using hne1
    · exact hfresh e he''
  have hanc := isAncestor_fresh _ _ hfresh' (s.commits.length + 1 + 1 + 1)
    (commitShaOf message (treeShaOf (applyTreeItems es (blobItems cleanB files))) [latest])
    (fun he => hne3 he.symm)
  have hc1 : cleanB.refFails = false := rfl
  have hc2 : cleanB.commitFetchFails = false := rfl
  have hc3 : cleanB.treeCreateFails = false := rfl
  have hc4 : cleanB.commitCreateFails = false := rfl
  have hc5 : cleanB.refUpdateFails = false := rfl
  simp only [pushToGitHubRepo, hc1, hc2, hc3, hc4, hc5, h1, h2, h3,
    Bool.false_eq_true, if_false]
  rw [lookupS_cons_self]
  simp [hanc, lookupS_cons_self]

/-- Concrete instance of the C1 theorem: while a push against
`exampleState` is in flight, another writer advances `main` from `c0` to
their own commit `ext1`; the push fails and `main` stays at `ext1`. -/
theorem push_conflict_rejected_witness :
    (pushToGitHubRepo cleanB (some ⟨"ext1", ⟨"tX", ["c0"], "em"⟩⟩) exampleState "o" "site"
        [⟨"index.html", "edited", "html"⟩] "update").1 =
      .error "Failed to update repository reference" ∧
    lookupS (pushToGitHubRepo cleanB (some ⟨"ext1", ⟨"tX", ["c0"], "em"⟩⟩) exampleState "o"
        "site" [⟨"index.html", "edited", "html"⟩] "update").2.1.refs "main" = some "ext1" :=
  push_conflict_rejected exampleState "o" "site" [⟨"index.html", "edited", "html"⟩] "update"
    "c0" ⟨"t0", [], "init"⟩ [⟨"index.html", "blob", "b1"⟩] ⟨"ext1", ⟨"tX", ["c0"], "em"⟩⟩
    rfl rfl rfl (by decide) (by decide) (by decide) (by decide) (by decide)

/-- C2: with no concurrent writer, every push either fails with the branch
reference exactly as it was before the push — the object stores at most
extended by the newly created (then unreferenced) blob/tree/commit objects —
or succeeds having advanced `main` to the new commit; the branch is
advanced exactly when every fatal step succeeds. -/
theorem push_atomic (b : Behavior) (s : RemoteState) (owner repo : String)
    (files : List File) (message : String) :
    ((pushToGitHubRepo b none s owner repo files message).1 ≠ .ok () ∧
     (pushToGitHubRepo b none s owner repo files message).2.1.refs = s.refs ∧
     s.blobs <:+ (pushToGitHubRepo b none s owner repo files message).2.1.blobs ∧
     s.trees <:+ (pushToGitHubRepo b none s owner repo files message).2.1.trees ∧
     s.commits <:+ (pushToGitHubRepo b none s owner repo files message).2.1.commits)
    ∨
    ((pushToGitHubRepo b none s owner repo files message).1 = .ok () ∧
     ∃ latest c0 es,
       lookupS s.refs "main" = some latest ∧
       lookupS s.commits latest = some c0 ∧
       lookupS s.trees c0.tree = some es ∧
       (pushToGitHubRepo b none s owner repo files message).2.1.refs =
         ("main", commitShaOf message (treeShaOf (applyTreeItems es (blobItems b files)))
           [latest]) :: s.refs) := by
  simp only [pushToGitHubRepo]
  repeat' split
  all_goals first
  | (left
     refine ⟨?_, ?_, ?_, ?_, ?_⟩
     · simp
     · simp
     · simp [List.suffix_cons, List.suffix_append, List.suffix_refl]
     · simp [List.suffix_cons, List.suffix_append, List.suffix_refl]
     · simp [List.suffix_cons, List.suffix_append, List.suffix_refl])
  | (right
     rename_i hb1 x1 latest hlatest hb2 x2 c0 hc0 hb3 x3 es hes hb4 hb5 x4 cur hcur hanc
     refine ⟨?_, latest, c0, es, hlatest, hc0, hes, ?_⟩
     · simp
     · simp)

/-! ### Lemmas for the round-trip claim -/

theorem string_append_left_cancel {a b c : String} (h : a ++ b = a ++ c) : b = c := by
  have hd : (a ++ b).data = (a ++ c).data := by rw [h]
  rw [String.data_append, String.data_append] at hd
  have h2 := List.append_cancel_left hd
  cases b
  cases c
  exact congrArg String.mk (by simpa using h2)

theorem string_append_beq (a b c : String) : (a ++ b == a ++ c) = (b == c) := by
  by_cases h : b = c
  · subst h
    simp
  · have h1 : (b == c) = false := beq_eq_false_iff_ne.mpr h
    have h2 : (a ++ b == a ++ c) = false :=
      beq_eq_false_iff_ne.mpr (fun he => h (string_append_left_cancel he))
    rw [h1, h2]

/-- Fetching a listing row's content URL reads exactly that blob's stored
payload. -/
theorem blobPayload_url (s : RemoteState) (sha : String) :
    blobPayload s ("u|" ++ sha) = lookupS s.blobs sha := by
  unfold blobPayload lookupS
  congr 1
  induction s.blobs with
  | nil => rfl
  | cons e t ih =>
      rw [List.find?_cons, List.find?_cons, string_append_beq]
      cases he : (e.1 == sha) <;> simp [he, ih]

/-- After a fully-successful blob-creation step, the hash of any pushed
file's content resolves to that content's payload. -/
theorem lookup_newBlobObjs (files : List File) (bl : List (String × Payload)) (f : File)
    (hf : f ∈ files) :
    lookupS (newBlobObjs cleanB files ++ bl) (blobShaOf f.content) =
      some (.b64 f.content) := by
  induction files with
  | nil => cases hf
  | cons g gs ih =>
      have hg : newBlobObjs cleanB (g :: gs) =
          (blobShaOf g.content, Payload.b64 g.content) :: newBlobObjs cleanB gs := by
        unfold newBlobObjs
        rw [List.filterMap_cons]
        rfl
      rw [hg]
      cases hbe : (blobShaOf g.content == blobShaOf f.content) with
      | true =>
          have : g.content = f.content :=
            string_append_left_cancel (by simpa [blobShaOf] using eq_of_beq hbe)
          rw [List.cons_append]
          unfold lookupS
          rw [List.find?_cons]
          simp [hbe, this]
      | false =>
          have hfm : f ∈ gs := by
            rcases List.mem_cons.mp hf with rfl | h'
            · simp at hbe
            · exact h'
          rw [List.cons_append]
          unfold lookupS
          rw [List.find?_cons]
          simp only [hbe]
          exact ih hfm

/-- What a successful per-blob fetch tells us: the stored payload is the
well-formed encoding of the returned content, and the file keeps the
entry's path. -/
theorem fetchOne_ok_spec (s : RemoteState) (it : GitHubTreeItem) (f : File)
    (h : fetchOne s it = .ok f) :
    blobPayload s it.url = some (.b64 f.content) ∧ f.name = it.path := by
  unfold fetchOne at h
  cases hp : blobPayload s it.url with
  | none => rw [hp] at h; cases h
  | some pl =>
      rw [hp] at h
      cases pl with
      | bad r => cases h
      | b64 t =>
          simp only [atobDecode] at h
          cases h
          exact ⟨rfl, rfl⟩

theorem isEligibleBlob_type (it : GitHubTreeItem) (h : isEligibleBlob it = true) :
    it.type = "blob" := by
  by_contra hne
  simp [isEligibleBlob, hne] at h

theorem setTreeEntry_find_self (es0 : List GitItem) (it : PushTreeItem)
    (htype : it.type = "blob") :
    (setTreeEntry es0 it).find? (fun x => x.path == it.path && x.type == "blob") =
      some ⟨it.path, it.type, it.sha⟩ := by
  induction es0 with
  | nil =>
      unfold setTreeEntry
      rw [List.find?_singleton]
      simp [htype]
  | cons e t ih =>
      unfold setTreeEntry
      cases hbe : (e.path == it.path) with
      | true =>
          rw [if_pos rfl, List.find?_cons]
          simp [htype]
      | false =>
          rw [if_neg (by simp), List.find?_cons, hbe, Bool.false_and]
          exact ih

theorem setTreeEntry_find_other (es0 : List GitItem) (it : PushTreeItem) (q : String)
    (hq : q ≠ it.path) :
    (setTreeEntry es0 it).find? (fun x => x.path == q && x.type == "blob") =
      es0.find? (fun x => x.path == q && x.type == "blob") := by
  have hitq : (it.path == q) = false := beq_eq_false_iff_ne.mpr (fun h => hq h.symm)
  induction es0 with
  | nil =>
      unfold setTreeEntry
      rw [List.find?_singleton]
      simp [hitq]
  | cons e t ih =>
      unfold setTreeEntry
      cases hbe : (e.path == it.path) with
      | true =>
          rw [if_pos rfl, List.find?_cons, List.find?_cons, eq_of_beq hbe, hitq,
            Bool.false_and, Bool.false_and]
      | false =>
          rw [if_neg (by simp), List.find?_cons, List.find?_cons]
          cases hpe : (e.path == q && e.type == "blob") with
          | true => rfl
          | false => exact ih

/-- Applying items whose paths all differ from `q` does not change what a
lookup at `q` finds. -/
theorem applyTreeItems_preserve (l2 : List PushTreeItem) (q : String)
    (h : ∀ x ∈ l2, x.path ≠ q) :
    ∀ es0 : List GitItem,
      (applyTreeItems es0 l2).find? (fun x => x.path == q && x.type == "blob") =
        es0.find? (fun x => x.path == q && x.type == "blob") := by
  induction l2 with
  | nil => intro es0; rfl
  | cons it t ih =>
      intro es0
      unfold applyTreeItems
      rw [List.foldl_cons]
      have hq : q ≠ it.path := fun he => h it (List.mem_cons_self it t) he.symm
      have hrec := ih (fun x hx => h x (List.mem_cons_of_mem it hx)) (setTreeEntry es0 it)
      unfold applyTreeItems at hrec
      rw [hrec, setTreeEntry_find_other es0 it q hq]

/-- The last item pushed for a path is what a lookup at that path finds in
the new tree. -/
theorem applyTreeItems_find (es0 : List GitItem) (l1 l2 : List PushTreeItem)
    (it : PushTreeItem) (htype : it.type = "blob")
    (hl2 : ∀ x ∈ l2, x.path ≠ it.path) :
    (applyTreeItems es0 (l1 ++ it :: l2)).find?
        (fun x => x.path == it.path && x.type == "blob") =
      some ⟨it.path, it.type, it.sha⟩ := by
  unfold applyTreeItems
  rw [List.foldl_append, List.foldl_cons]
  have hp := applyTreeItems_preserve l2 it.path hl2
    (setTreeEntry (List.foldl setTreeEntry es0 l1) it)
  unfold applyTreeItems at hp
  rw [hp, setTreeEntry_find_self _ it htype]

/-- In a tree with distinct paths, the lookup at a stored blob entry's path
finds exactly that entry. -/
theorem find?_nodup_self (es : List GitItem) (e : GitItem) (he : e ∈ es)
    (hnd : (es.map (fun x => x.path)).Nodup) (htype : e.type = "blob") :
    es.find? (fun x => x.path == e.path && x.type == "blob") = some e := by
  induction es with
  | nil => cases he
  | cons x xs ih =>
      rw [List.map_cons, List.nodup_cons] at hnd
      rcases List.mem_cons.mp he with rfl | he'
      · rw [List.find?_cons]
        simp [htype]
      · have hxe : (x.path == e.path) = false := by
          refine beq_eq_false_iff_ne.mpr (fun hc => hnd.1 ?_)
          rw [hc]
          exact List.mem_map.mpr ⟨e, he', rfl⟩
        rw [List.find?_cons, hxe, Bool.false_and]
        exact ih he' hnd.2

theorem forall₂_mem_both {α β : Type} {R : α → β → Prop} :
    ∀ {l : List α} {ys : List β}, List.Forall₂ R l ys → ∀ {x}, x ∈ l → ∃ y ∈ ys, R x y := by
  intro l ys h
  induction h with
  | nil => intro x hx; cases hx
  | cons hxy htail ih =>
      intro x hx
      rcases List.mem_cons.mp hx with rfl | hx'
      · exact ⟨_, List.mem_cons_self _ _, hxy⟩
      · obtain ⟨y, hy, hr⟩ := ih hx'
        exact ⟨y, List.mem_cons_of_mem _ hy, hr⟩

/-- The files a successful content fetch returns carry, in order, exactly
the paths of the fetched listing rows. -/
theorem forall₂_fetch_names (s : RemoteState) :
    ∀ {elig : List GitHubTreeItem} {files : List File},
      List.Forall₂ (fun it f => fetchOne s it = .ok f) elig files →
      files.map (fun f => f.name) = elig.map (fun it => it.path) := by
  intro elig files h
  induction h with
  | nil => rfl
  | cons hxy _ ih =>
      rw [List.map_cons, List.map_cons, ih, (fetchOne_ok_spec _ _ _ hxy).2]

/-- C5, counterexample: for a concrete push against `exampleState`, whose
step-1 tip is `c0`, the one `PATCH …/git/refs/heads/main` request carries
the body `{ sha: <new commit hash>, force: false }` — its only hash field
is the new commit hash, which differs from `c0`, so the step-1 tip is not
supplied as an expected current value, contradicting the claim. -/
theorem push_ref_update_counterexample :
    lookupS exampleState.refs "main" = some "c0" ∧
    patchBodies ((pushToGitHubRepo cleanB none exampleState "o" "site"
        [⟨"a.ts", "x", "ts"⟩] "m").2.2) =
      [⟨"C|m|T|index.html:blob:b1;a.ts:blob:B|x|c0", false⟩] ∧
    ("C|m|T|index.html:blob:b1;a.ts:blob:B|x|c0" : String) ≠ "c0" := by
  refine ⟨rfl, rfl, by decide⟩

/-- C5 as amended: whenever a push reaches its final step, the single
branch-reference update request carries exactly the new commit hash and
`force: false` — no expected-current-value precondition; conflict rejection
is left entirely to the remote's non-fast-forward check. -/
theorem push_ref_update_body (b : Behavior) (s : RemoteState) (owner repo : String)
    (files : List File) (message : String) (latest : String) (c0 : Commit) (es : List GitItem)
    (hb1 : b.refFails = false) (hb2 : b.commitFetchFails = false)
    (hb3 : b.treeCreateFails = false) (hb4 : b.commitCreateFails = false)
    (h1 : lookupS s.refs "main" = some latest)
    (h2 : lookupS s.commits latest = some c0)
    (h3 : lookupS s.trees c0.tree = some es) :
    patchBodies ((pushToGitHubRepo b none s owner repo files message).2.2) =
      [⟨commitShaOf message (treeShaOf (applyTreeItems es (blobItems b files))) [latest], false⟩] := by
  unfold pushToGitHubRepo
  simp only [hb1, hb2, hb3, hb4, h1, h2, h3, Bool.false_eq_true, if_false]
  split <;> try (split <;> try split)
  all_goals
    simp [patchBodies, List.filterMap_append, List.filterMap_cons, List.filterMap_map,
      Function.comp]

/-- If `b` reaches `a` in one parent step through a stored commit, the
ancestry walk confirms it at any fuel of at least 2. -/
theorem isAncestor_of_parent (cs : List (String × Commit)) (n : Nat) (a b : String) (c : Commit)
    (hn : 2 ≤ n) (hlook : lookupS cs b = some c) (ha : a ∈ c.parents) :
    isAncestor cs n a b = true := by
  obtain ⟨m, rfl⟩ : ∃ m, n = m + 2 := ⟨n - 2, by omega⟩
  have hself : isAncestor cs (m + 1) a a = true := by
    unfold isAncestor
    simp
  show isAncestor cs (m + 1 + 1) a b = true
  unfold isAncestor
  rw [hlook]
  have hany : c.parents.any (fun p => isAncestor cs (m + 1) a p) = true :=
    List.any_eq_true.mpr ⟨a, ha, hself⟩
  simp [hany]

/-- A push whose five steps all succeed, with no concurrent writer, returns
success and advances the branch to the new commit; the new tree, commit and
blob objects are exactly the ones recorded here. -/
theorem push_success (b : Behavior) (s : RemoteState) (owner repo : String)
    (files : List File) (message : String) (latest : String) (c0 : Commit) (es : List GitItem)
    (hb1 : b.refFails = false) (hb2 : b.commitFetchFails = false)
    (hb3 : b.treeCreateFails = false) (hb4 : b.commitCreateFails = false)
    (hb5 : b.refUpdateFails = false)
    (h1 : lookupS s.refs "main" = some latest)
    (h2 : lookupS s.commits latest = some c0)
    (h3 : lookupS s.trees c0.tree = some es) :
    (pushToGitHubRepo b none s owner repo files message).1 = .ok () ∧
    (pushToGitHubRepo b none s owner repo files message).2.1 =
      { s with
        blobs := newBlobObjs b files ++ s.blobs,
        trees := (treeShaOf (applyTreeItems es (blobItems b files)),
                  applyTreeItems es (blobItems b files)) :: s.trees,
        commits := (commitShaOf message (treeShaOf (applyTreeItems es (blobItems b files))) [latest],
                    ⟨treeShaOf (applyTreeItems es (blobItems b files)), [latest], message⟩) :: s.commits,
        refs := ("main", commitShaOf message (treeShaOf (applyTreeItems es (blobItems b files)))
                  [latest]) :: s.refs } := by
  unfold pushToGitHubRepo
  simp only [hb1, hb2, hb3, hb4, hb5, h1, h2, h3, Bool.false_eq_true, if_false]
  have hanc : isAncestor
      ((commitShaOf message (treeShaOf (applyTreeItems es (blobItems b files))) [latest],
        (⟨treeShaOf (applyTreeItems es (blobItems b files)), [latest], message⟩ : Commit)) :: s.commits)
      (s.commits.length + 1 + 1)
      latest
      (commitShaOf message (treeShaOf (applyTreeItems es (blobItems b files))) [latest]) = true :=
    isAncestor_of_parent _ _ _ _ _ (by omega) (lookupS_cons_self _ _ _) (by simp)
  simp [h1, lookupS_cons_self, hanc]

/-- When no file's blob creation fails, the collected tree items are one
regular-file entry per file, in order. -/
theorem blobItems_all_ok (b : Behavior) (l : List File)
    (h : ∀ g ∈ l, g.content ∉ b.blobCreateFails) :
    blobItems b l = l.map (fun g => ⟨g.name, "100644", "blob", blobShaOf g.content⟩) := by
  induction l with
  | nil => rfl
  | cons g gs ih =>
      have hg : g.content ∉ b.blobCreateFails := h g (List.mem_cons_self g gs)
      have hgs : ∀ x ∈ gs, x.content ∉ b.blobCreateFails :=
        fun x hx => h x (List.mem_cons_of_mem g hx)
      have ih' := ih hgs
      unfold blobItems at ih' ⊢
      simp at ih'
      simp [List.filterMap_cons, hg, ih']

/-- When blob creation fails for exactly the file `f`, the collected tree
items are one entry per remaining file, in order, with `f` absent. -/
theorem blobItems_skips_bad (b : Behavior) (l1 l2 : List File) (f : File)
    (hf : f.content ∈ b.blobCreateFails)
    (hok : ∀ g ∈ l1 ++ l2, g.content ∉ b.blobCreateFails) :
    blobItems b (l1 ++ f :: l2) =
      (l1 ++ l2).map (fun g => ⟨g.name, "100644", "blob", blobShaOf g.content⟩) := by
  have e1 := blobItems_all_ok b l1 (fun g hg => hok g (List.mem_append_left _ hg))
  have e2 := blobItems_all_ok b l2 (fun g hg => hok g (List.mem_append_right _ hg))
  unfold blobItems at e1 e2 ⊢
  rw [List.filterMap_append, List.filterMap_cons]
  simp only [hf, if_true, e1, e2, List.map_append]
  simp [hf]

/-- A push that reaches step 4 issues exactly one tree-creation request,
whose entries are the collected blob items. -/
theorem push_tree_request (b : Behavior) (s : RemoteState) (owner repo : String)
    (files : List File) (message : String) (latest : String) (c0 : Commit) (es : List GitItem)
    (hb1 : b.refFails = false) (hb2 : b.commitFetchFails = false)
    (hb3 : b.treeCreateFails = false) (hb4 : b.commitCreateFails = false)
    (h1 : lookupS s.refs "main" = some latest)
    (h2 : lookupS s.commits latest = some c0)
    (h3 : lookupS s.trees c0.tree = some es) :
    postTreeItemLists ((pushToGitHubRepo b none s owner repo files message).2.2) =
      [blobItems b files] := by
  unfold pushToGitHubRepo
  simp only [hb1, hb2, hb3, hb4, h1, h2, h3, Bool.false_eq_true, if_false]
  split <;> try (split <;> try split)
  all_goals
    simp [postTreeItemLists, List.filterMap_append, List.filterMap_cons, List.filterMap_map,
      Function.comp]

/-- C3, counterexample: for the concrete 5-file push in which blob creation
fails for `c.ts`, the caller-visible outcome is the bare `ok ()` — it is
literally identical to the outcome of the same push in the fully-successful
environment, so no `BlobCreateFailed` notice naming the dropped file (or
any per-file information at all) reaches the caller, contradicting the
notice part of the claim. -/
theorem push_partial_no_notice_counterexample :
    (pushToGitHubRepo exampleFailBehavior none exampleState "o" "site" exampleFiles "m").1
      = .ok () ∧
    (pushToGitHubRepo exampleFailBehavior none exampleState "o" "site" exampleFiles "m").1
      = (pushToGitHubRepo cleanB none exampleState "o" "site" exampleFiles "m").1 :=
  ⟨rfl, rfl⟩

/-- C3 as amended: when blob creation fails for exactly one of the pushed
files and every other remote call succeeds, the push succeeds and the
single tree-creation request contains exactly one entry per remaining file
(the failed file is dropped); the caller receives no notice — the skip is
silent. -/
theorem push_partial_tolerance (b : Behavior) (s : RemoteState)
    (owner repo message bad : String) (l1 l2 : List File) (f : File)
    (latest : String) (c0 : Commit) (es : List GitItem)
    (hb : b = ⟨false, false, false, false, [bad], false, false, false⟩)
    (h1 : lookupS s.refs "main" = some latest)
    (h2 : lookupS s.commits latest = some c0)
    (h3 : lookupS s.trees c0.tree = some es)
    (hf : f.content = bad)
    (hok : ∀ g ∈ l1 ++ l2, g.content ≠ bad) :
    (pushToGitHubRepo b none s owner repo (l1 ++ f :: l2) message).1 = .ok () ∧
    postTreeItemLists ((pushToGitHubRepo b none s owner repo (l1 ++ f :: l2) message).2.2) =
      [(l1 ++ l2).map (fun g => ⟨g.name, "100644", "blob", blobShaOf g.content⟩)] := by
  subst hb
  have hf' : f.content ∈ ([bad] : List String) := by simp [hf]
  have hok' : ∀ g ∈ l1 ++ l2, g.content ∉ ([bad] : List String) := by
    intro g hg
    simp
    exact hok g hg
  refine ⟨(push_success _ s owner repo _ message latest c0 es
      rfl rfl rfl rfl rfl h1 h2 h3).1, ?_⟩
  rw [push_tree_request _ s owner repo _ message latest c0 es rfl rfl rfl rfl h1 h2 h3]
  rw [blobItems_skips_bad _ l1 l2 f hf' hok']

/-- Concrete instance of the amended C3 theorem: 5 files, blob creation
failing exactly for `c.ts`; the push succeeds and the tree request carries
the other 4 files. -/
theorem push_partial_tolerance_witness :
    (pushToGitHubRepo exampleFailBehavior none exampleState "o" "site" exampleFiles "m").1
      = .ok () ∧
    postTreeItemLists
        ((pushToGitHubRepo exampleFailBehavior none exampleState "o" "site" exampleFiles "m").2.2) =
      [([⟨"a.ts", "ca", "ts"⟩, ⟨"b.ts", "cb", "ts"⟩, ⟨"d.ts", "cd", "ts"⟩,
         ⟨"e.ts", "ce", "ts"⟩] : List File).map
        (fun g => ⟨g.name, "100644", "blob", blobShaOf g.content⟩)] :=
  push_partial_tolerance exampleFailBehavior exampleState "o" "site" "m" "cbad"
    [⟨"a.ts", "ca", "ts"⟩, ⟨"b.ts", "cb", "ts"⟩] [⟨"d.ts", "cd", "ts"⟩, ⟨"e.ts", "ce", "ts"⟩]
    ⟨"c.ts", "cbad", "ts"⟩ "c0" ⟨"t0", [], "init"⟩ [⟨"index.html", "blob", "b1"⟩]
    rfl rfl rfl rfl rfl (by decide)

/-- Concrete instance of the amended C5 theorem on `exampleState`. -/
theorem push_ref_update_body_witness :
    patchBodies ((pushToGitHubRepo cleanB none exampleState "o" "site"
        [⟨"a.ts", "x", "ts"⟩] "m").2.2) =
      [⟨commitShaOf "m" (treeShaOf (applyTreeItems [⟨"index.html", "blob", "b1"⟩]
          (blobItems cleanB [⟨"a.ts", "x", "ts"⟩]))) ["c0"], false⟩] :=
  push_ref_update_body cleanB exampleState "o" "site" [⟨"a.ts", "x", "ts"⟩] "m" "c0"
    ⟨"t0", [], "init"⟩ [⟨"index.html", "blob", "b1"⟩] rfl rfl rfl rfl rfl rfl rfl

/-- C6, counterexample: in `exampleDevState` the default branch is `dev`
while the push targets `main`; import-then-push succeeds, `a.ts` is in the
eligible subset of the push's base tree (`main`'s tree `tm`), yet the new
tree's content at `a.ts` is `dev`'s payload, not the base tree's — the
round trip as universally stated fails for repositories whose default
branch is not the push target. -/
theorem import_push_round_trip_counterexample :
    (fetchGithubRepo cleanB exampleDevState "o" "repo").1 =
      .ok ("repo", [⟨"a.ts", "BBB", "ts"⟩]) ∧
    (pushToGitHubRepo cleanB none exampleDevState "o" "repo" [⟨"a.ts", "BBB", "ts"⟩] "m").1 =
      .ok () ∧
    isEligibleBlob (listingItem exampleDevState ⟨"a.ts", "blob", "bm"⟩) = true ∧
    treeContentOf
        (pushToGitHubRepo cleanB none exampleDevState "o" "repo"
          [⟨"a.ts", "BBB", "ts"⟩] "m").2.1
        (treeShaOf (applyTreeItems [⟨"a.ts", "blob", "bm"⟩]
          (blobItems cleanB [⟨"a.ts", "BBB", "ts"⟩]))) "a.ts" =
      some (.b64 "BBB") ∧
    treeContentOf exampleDevState "tm" "a.ts" = some (.b64 "AAA") ∧
    (Payload.b64 "BBB") ≠ (Payload.b64 "AAA") := by
  refine ⟨rfl, rfl, rfl, rfl, rfl, by decide⟩

/-- C6 as amended: for a repository whose default branch is the push
target `main` and whose base tree is well-formed (distinct paths),
importing and then immediately pushing the unmodified imported file set
succeeds, and the new commit's tree stores, at every path of the eligible
subset of the base tree, a payload byte-identical to the base tree's — the
round trip introduces no content change. -/
theorem import_push_round_trip (s : RemoteState) (owner repo message : String)
    (info : RepoInfo) (latest : String) (c0 : Commit) (es : List GitItem)
    (name : String) (files : List File)
    (hinfo : s.repoInfo = some info)
    (hmb : info.default_branch = "main")
    (h1 : lookupS s.refs "main" = some latest)
    (h2 : lookupS s.commits latest = some c0)
    (h3 : lookupS s.trees c0.tree = some es)
    (hnd : (es.map (fun e => e.path)).Nodup)
    (himp : (fetchGithubRepo cleanB s owner repo).1 = .ok (name, files)) :
    (pushToGitHubRepo cleanB none s owner repo files message).1 = .ok () ∧
    ∀ it ∈ (es.map (listingItem s)).filter isEligibleBlob,
      treeContentOf (pushToGitHubRepo cleanB none s owner repo files message).2.1
          (treeShaOf (applyTreeItems es (blobItems cleanB files))) it.path
        = treeContentOf s c0.tree it.path := by
  have hlist : listingOf s info.default_branch = some (es.map (listingItem s)) := by
    rw [hmb]
    unfold listingOf
    simp only [h1, h2, h3]
  have hc1 : cleanB.repoFails = false := rfl
  have hc2 : cleanB.treeListFails = false := rfl
  have hres : (fetchGithubRepo cleanB s owner repo).1
      = Except.map (fun fs => (info.name, fs))
          (((es.map (listingItem s)).filter isEligibleBlob).mapM (fetchOne s)) := by
    unfold fetchGithubRepo
    simp [hc1, hc2, hinfo, hlist, fetchBatches_fst]
  rw [hres] at himp
  have hfiles : ((es.map (listingItem s)).filter isEligibleBlob).mapM (fetchOne s)
      = .ok files := by
    cases hm : ((es.map (listingItem s)).filter isEligibleBlob).mapM (fetchOne s) with
    | error e =>
        rw [hm] at himp
        simp [Except.map] at himp
    | ok fs =>
        rw [hm] at himp
        simp only [Except.map, Except.ok.injEq, Prod.mk.injEq] at himp
        rw [himp.2]
  have hF := (exceptMapM_ok_iff (fetchOne s) _ files).mp hfiles
  obtain ⟨hok, hstate⟩ :=
    push_success cleanB s owner repo files message latest c0 es rfl rfl rfl rfl rfl h1 h2 h3
  refine ⟨hok, ?_⟩
  intro it hit
  obtain ⟨f, hfmem, hfF⟩ := forall₂_mem_both hF hit
  obtain ⟨hpay, hname⟩ := fetchOne_ok_spec s it f hfF
  obtain ⟨hmm, helig_it⟩ := List.mem_filter.mp hit
  have htype_it : it.type = "blob" := isEligibleBlob_type it helig_it
  obtain ⟨e, hemem, heq⟩ := List.mem_map.mp hmm
  subst heq
  have htype_e : e.type = "blob" := htype_it
  rw [show (listingItem s e).url = "u|" ++ e.sha from rfl, blobPayload_url] at hpay
  have hbase : treeContentOf s c0.tree (listingItem s e).path = some (.b64 f.content) := by
    show treeContentOf s c0.tree e.path = _
    unfold treeContentOf
    simp only [h3, find?_nodup_self es e hemem hnd htype_e, hpay]
  have hpaths_eq : ∀ l : List GitItem,
      (l.map (listingItem s)).map (fun x => x.path) = l.map (fun x => x.path) := by
    intro l
    induction l with
    | nil => rfl
    | cons a t ih => simp [listingItem, ih]
  have helignd : (((es.map (listingItem s)).filter isEligibleBlob).map
      (fun x => x.path)).Nodup := by
    refine List.Nodup.sublist ?_ (hpaths_eq es ▸ hnd)
    exact List.Sublist.map _ (List.filter_sublist _)
  have hfnd : (files.map (fun g => g.name)).Nodup := by
    rw [forall₂_fetch_names s hF]
    exact helignd
  obtain ⟨l1, l2, hsplit⟩ := List.append_of_mem hfmem
  have hl2 : ∀ g ∈ l2, g.name ≠ f.name := by
    have hsub : (f.name :: l2.map (fun g => g.name)).Nodup := by
      refine List.Sublist.nodup ?_ hfnd
      rw [hsplit, List.map_append, List.map_cons]
      exact List.sublist_append_right _ _
    intro g hg he
    exact (List.nodup_cons.mp hsub).1 (List.mem_map.mpr ⟨g, hg, he⟩)
  have hbi : blobItems cleanB files
      = files.map (fun g => (⟨g.name, "100644", "blob", blobShaOf g.content⟩ : PushTreeItem)) :=
    blobItems_all_ok cleanB files (fun g _ => by simp [cleanB])
  have hitems : blobItems cleanB files
      = (l1.map (fun g => (⟨g.name, "100644", "blob", blobShaOf g.content⟩ : PushTreeItem)))
        ++ (⟨f.name, "100644", "blob", blobShaOf f.content⟩ : PushTreeItem)
        :: (l2.map (fun g =>
            (⟨g.name, "100644", "blob", blobShaOf g.content⟩ : PushTreeItem))) := by
    rw [hbi, hsplit, List.map_append, List.map_cons]
  have hl2' : ∀ x ∈ l2.map (fun g =>
      (⟨g.name, "100644", "blob", blobShaOf g.content⟩ : PushTreeItem)),
      x.path ≠ (⟨f.name, "100644", "blob", blobShaOf f.content⟩ : PushTreeItem).path := by
    intro x hx
    obtain ⟨g, hg, rfl⟩ := List.mem_map.mp hx
    exact hl2 g hg
  have hfind := applyTreeItems_find es
    (l1.map (fun g => (⟨g.name, "100644", "blob", blobShaOf g.content⟩ : PushTreeItem)))
    (l2.map (fun g => (⟨g.name, "100644", "blob", blobShaOf g.content⟩ : PushTreeItem)))
    (⟨f.name, "100644", "blob", blobShaOf f.content⟩ : PushTreeItem) rfl hl2'
  rw [← hitems] at hfind
  have hnew : treeContentOf
      (pushToGitHubRepo cleanB none s owner repo files message).2.1
      (treeShaOf (applyTreeItems es (blobItems cleanB files))) (listingItem s e).path
      = some (.b64 f.content) := by
    rw [hstate]
    unfold treeContentOf
    have hpath : (listingItem s e).path = f.name := hname.symm
    have hfind2 : (applyTreeItems es (blobItems cleanB files)).find?
        (fun x => x.path == f.name && x.type == "blob")
        = some ⟨f.name, "blob", blobShaOf f.content⟩ := hfind
    simp only [lookupS_cons_self, hpath, hfind2]
    exact lookup_newBlobObjs files s.blobs f hfmem
  rw [hnew, hbase]

/-- Concrete instance of the amended C6 theorem: importing `exampleState`
and pushing the imported file back reproduces the base tree's content. -/
theorem import_push_round_trip_witness :
    (pushToGitHubRepo cleanB none exampleState "o" "site"
        [⟨"index.html", "hello", "html"⟩] "m").1 = .ok () ∧
    ∀ it ∈ ([⟨"index.html", "blob", "b1"⟩] : List GitItem).map (listingItem exampleState)
        |>.filter isEligibleBlob,
      treeContentOf (pushToGitHubRepo cleanB none exampleState "o" "site"
          [⟨"index.html", "hello", "html"⟩] "m").2.1
          (treeShaOf (applyTreeItems [⟨"index.html", "blob", "b1"⟩]
            (blobItems cleanB [⟨"index.html", "hello", "html"⟩]))) it.path
        = treeContentOf exampleState "t0" it.path :=
  import_push_round_trip exampleState "o" "site" "m" ⟨"site", "main"⟩ "c0"
    ⟨"t0", [], "init"⟩ [⟨"index.html", "blob", "b1"⟩] "site"
    [⟨"index.html", "hello", "html"⟩] rfl rfl rfl rfl rfl (by decide) rfl

end GithubSync
